import Mathlib

/-!
Verification of the core engineering implied by the wradlib notebook material:
the RADOLAN composite decoder and the zonal statistics engine
(header-driven payload decoding, sentinel flagging, overlap weight tables,
weight persistence, and weighted aggregation).  The library code called by the
notebooks is not part of the repository, so each component is modelled from the
specification text and the notebook call sites.
-/

/-- Modelled from the spec: the error taxonomy of §7 (the wradlib library code
raising these conditions is not in the repository). -/
inductive RadlibError where
  | formatError
  | truncatedDataError
  | geometryError
  | dimensionMismatchError
  | staleWeightsError
deriving DecidableEq, Repr

/-- Modelled from the spec: the four flag categories of §3 for cells whose raw
payload value is a sentinel rather than a measurement. -/
inductive CellFlag where
  | undef
  | secondary
  | clutter
  | negative
deriving DecidableEq, Repr

/-- Modelled from the spec: CompositeHeader of §3 — grid dimensions, pixel
byte-width, quantization scale, byte order and the product-specific
sentinel-to-flag lookup table (§4.2: table-driven, not hardcoded). -/
structure CompositeHeader where
  rows : ℕ
  cols : ℕ
  byteWidth : ℕ
  scale : ℚ
  littleEndian : Bool
  sentinels : List (ℕ × CellFlag)
deriving DecidableEq, Repr

/-- Modelled from the spec: CompositeGrid of §3 — dense decoded values (a
flagged cell carries no measurement, hence `Option`) plus the per-flag index
sets. -/
structure CompositeGrid where
  values : List (Option ℚ)
  undefIdx : List ℕ
  secondaryIdx : List ℕ
  clutterIdx : List ℕ
  negativeIdx : List ℕ
deriving DecidableEq, Repr

/-- Combine the bytes of one fixed-width word in the declared byte order
(most significant byte first after normalisation). -/
def decodeWord (littleEndian : Bool) (bytes : List ℕ) : ℕ :=
  (if littleEndian then bytes.reverse else bytes).foldl (fun acc b => acc * 256 + b) 0

/-- Split the payload into `n` consecutive words of `w` bytes each. -/
def readWords (w : ℕ) : ℕ → List ℕ → List (List ℕ)
  | 0, _ => []
  | n + 1, l => l.take w :: readWords w n (l.drop w)

/-- Look a raw integer value up in the product-specific sentinel table. -/
def flagOf (tbl : List (ℕ × CellFlag)) (raw : ℕ) : Option CellFlag :=
  (tbl.find? (fun p => p.1 == raw)).map Prod.snd

/-- Raw integer values of a payload, one per grid cell, read as rows·cols
fixed-width words in the header-declared byte order. -/
def rawValues (hdr : CompositeHeader) (payload : List ℕ) : List ℕ :=
  (readWords hdr.byteWidth (hdr.rows * hdr.cols) payload).map (decodeWord hdr.littleEndian)

/-- Linear indices of the cells whose raw value the sentinel table maps to the
given flag. -/
def flagIndices (hdr : CompositeHeader) (raws : List ℕ) (f : CellFlag) : List ℕ :=
  (List.range raws.length).filter (fun i => decide (flagOf hdr.sentinels (raws.getD i 0) = some f))

/-- Modelled from the spec: `wradlib.io.read_radolan_composite` (§4.2), called
by the notebooks but implemented in the external library.  The payload length
must equal rows·cols·byte-width, otherwise decoding fails with
`truncatedDataError` and no grid is returned; sentinel-valued cells are
redirected into the flag index sets instead of being scaled. -/
def read_radolan_composite (hdr : CompositeHeader) (payload : List ℕ) :
    Except RadlibError CompositeGrid :=
  if payload.length = hdr.rows * hdr.cols * hdr.byteWidth then
    Except.ok
      ⟨(rawValues hdr payload).map (fun r =>
          if (flagOf hdr.sentinels r).isSome then none else some (hdr.scale * (r : ℚ))),
        flagIndices hdr (rawValues hdr payload) CellFlag.undef,
        flagIndices hdr (rawValues hdr payload) CellFlag.secondary,
        flagIndices hdr (rawValues hdr payload) CellFlag.clutter,
        flagIndices hdr (rawValues hdr payload) CellFlag.negative⟩
  else
    Except.error RadlibError.truncatedDataError

theorem readWords_length (w : ℕ) : ∀ (n : ℕ) (l : List ℕ), (readWords w n l).length = n := by
  intro n
  induction n with
  | zero => intro l; rfl
  | succ m ih => intro l; simp [readWords, ih]

theorem rawValues_length (hdr : CompositeHeader) (payload : List ℕ) :
    (rawValues hdr payload).length = hdr.rows * hdr.cols := by
  simp [rawValues, readWords_length]

/-- Flag index set of a grid for a given flag category. -/
def CompositeGrid.flagSet (g : CompositeGrid) : CellFlag → List ℕ
  | CellFlag.undef => g.undefIdx
  | CellFlag.secondary => g.secondaryIdx
  | CellFlag.clutter => g.clutterIdx
  | CellFlag.negative => g.negativeIdx

/-- C3: the composite decoder succeeds with a grid of exactly rows·cols values
iff the payload length equals rows·cols·byte-width; on any mismatch it fails
with `truncatedDataError` and returns no grid, not even a partial one. -/
theorem decode_length_check (hdr : CompositeHeader) (payload : List ℕ) :
    ((∃ g, read_radolan_composite hdr payload = Except.ok g ∧
        g.values.length = hdr.rows * hdr.cols) ↔
      payload.length = hdr.rows * hdr.cols * hdr.byteWidth)
    ∧ (payload.length ≠ hdr.rows * hdr.cols * hdr.byteWidth →
        read_radolan_composite hdr payload = Except.error RadlibError.truncatedDataError) := by
  by_cases h : payload.length = hdr.rows * hdr.cols * hdr.byteWidth
  · constructor
    · simp only [read_radolan_composite, if_pos h]
      constructor
      · intro _; exact h
      · intro _
        refine ⟨_, rfl, ?_⟩
        simp [rawValues_length]
    · intro hne; exact absurd h hne
  · constructor
    · simp only [read_radolan_composite, if_neg h]
      constructor
      · rintro ⟨g, hg, -⟩; cases hg
      · intro hcontra; exact absurd hcontra h
    · intro _
      simp only [read_radolan_composite, if_neg h]

/-- C3 witness: a 2×2 one-byte grid decodes from a 4-byte payload to exactly
4 values, and the same payload truncated by one byte fails with
`truncatedDataError`. -/
theorem decode_length_check_witness :
    (∃ g, read_radolan_composite ⟨2, 2, 1, 1/2, false, [(249, CellFlag.secondary)]⟩
        [0, 1, 2, 3] = Except.ok g ∧ g.values.length = 2 * 2)
    ∧ read_radolan_composite ⟨2, 2, 1, 1/2, false, [(249, CellFlag.secondary)]⟩
        [0, 1, 2] = Except.error RadlibError.truncatedDataError := by
  constructor
  · exact (decode_length_check ⟨2, 2, 1, 1/2, false, [(249, CellFlag.secondary)]⟩
      [0, 1, 2, 3]).1.mpr (by decide)
  · exact (decode_length_check ⟨2, 2, 1, 1/2, false, [(249, CellFlag.secondary)]⟩
      [0, 1, 2]).2 (by decide)

/-- C4: a cell whose raw value the product's sentinel table maps to a flag has
its linear index placed in the corresponding flag index set, and the grid holds
no scale-multiplied measurement for it (the cell's value slot is `none`). -/
theorem sentinel_cell_flagged (hdr : CompositeHeader) (payload : List ℕ) (i s : ℕ)
    (f : CellFlag)
    (hlen : payload.length = hdr.rows * hdr.cols * hdr.byteWidth)
    (hi : i < hdr.rows * hdr.cols)
    (hraw : (rawValues hdr payload).getD i 0 = s)
    (hsent : flagOf hdr.sentinels s = some f) :
    ∃ g, read_radolan_composite hdr payload = Except.ok g ∧
      i ∈ g.flagSet f ∧ g.values.get? i = some none := by
  have hlenraw : (rawValues hdr payload).length = hdr.rows * hdr.cols :=
    rawValues_length hdr payload
  have hiraw : i < (rawValues hdr payload).length := by rw [hlenraw]; exact hi
  have hgetd : (rawValues hdr payload).getD i 0 = (rawValues hdr payload).get ⟨i, hiraw⟩ := by
    simp [List.getD_eq_getElem?_getD, List.getElem?_eq_getElem hiraw]
  have hs : (rawValues hdr payload).get ⟨i, hiraw⟩ = s := by rw [← hgetd, hraw]
  refine ⟨⟨(rawValues hdr payload).map (fun r =>
      if (flagOf hdr.sentinels r).isSome then none else some (hdr.scale * (r : ℚ))),
      flagIndices hdr (rawValues hdr payload) CellFlag.undef,
      flagIndices hdr (rawValues hdr payload) CellFlag.secondary,
      flagIndices hdr (rawValues hdr payload) CellFlag.clutter,
      flagIndices hdr (rawValues hdr payload) CellFlag.negative⟩,
    by simp only [read_radolan_composite, if_pos hlen], ?_, ?_⟩
  · cases f <;>
      simp only [CompositeGrid.flagSet, flagIndices, List.mem_filter, List.mem_range,
        decide_eq_true_eq] <;>
      exact ⟨by rw [hlenraw]; exact hi, by rw [hraw]; exact hsent⟩
  · have : ((rawValues hdr payload).map (fun r =>
        if (flagOf hdr.sentinels r).isSome then none
        else some (hdr.scale * (r : ℚ)))).get? i
        = some (if (flagOf hdr.sentinels ((rawValues hdr payload).get ⟨i, hiraw⟩)).isSome
            then none else some (hdr.scale * (((rawValues hdr payload).get ⟨i, hiraw⟩ : ℕ) : ℚ))) := by
      rw [List.get?_eq_get (by simpa using hiraw)]
      simp
    rw [this, hs, hsent]
    simp

/-- C4 witness: in a 2×2 one-byte product whose sentinel table maps 249 to the
secondary flag, the cell with raw value 249 lands in the secondary index set
and carries no scaled value. -/
theorem sentinel_cell_flagged_witness :
    ∃ g, read_radolan_composite ⟨2, 2, 1, 1/2, false, [(249, CellFlag.secondary)]⟩
        [0, 249, 2, 3] = Except.ok g ∧
      1 ∈ g.flagSet CellFlag.secondary ∧ g.values.get? 1 = some none := by
  exact sentinel_cell_flagged ⟨2, 2, 1, 1/2, false, [(249, CellFlag.secondary)]⟩
    [0, 249, 2, 3] 1 249 CellFlag.secondary (by decide) (by decide) (by decide) (by decide)

/-- Modelled from the spec: OverlapRecord of §3 — one contributing
(source cell, target polygon) pair with its overlap weight. -/
structure OverlapRecord where
  sourceCellIndex : ℕ
  targetPolygonKey : ℕ
  overlapAreaFraction : ℚ
deriving DecidableEq, Repr

/-- Modelled from the spec: ZonalWeightTable of §3 — the overlap records
together with the size of the source geometry, the number of target polygons
(keys are 0 .. numTargets-1) and the geometry fingerprint. -/
structure ZonalWeightTable where
  records : List OverlapRecord
  numSourceCells : ℕ
  numTargets : ℕ
  fingerprint : ℕ
deriving DecidableEq, Repr

/-- Modelled from the spec: the `wradlib.zonalstats.ZonalStatsPoly` object of
the notebooks — the statistics engine wrapping an immutable weight table. -/
structure ZonalStatsPoly where
  zdata : ZonalWeightTable
deriving DecidableEq, Repr

/-- Contributing (weight, value) pairs of one target: records with that target
key whose source cell holds an actual value; a no-data cell (`none`) is
excluded from numerator and denominator alike (§4.6), never treated as zero. -/
def contribPairs (records : List OverlapRecord) (k : ℕ) (vals : List (Option ℚ)) :
    List (ℚ × ℚ) :=
  records.filterMap (fun r =>
    if r.targetPolygonKey = k then
      (vals.getD r.sourceCellIndex none).map (fun v => (r.overlapAreaFraction, v))
    else none)

/-- Weighted mean Σ(wᵢ·vᵢ) / Σ(wᵢ) over contributing pairs. -/
def weightedMean (pairs : List (ℚ × ℚ)) : ℚ :=
  ((pairs.map (fun p => p.1 * p.2)).sum) / ((pairs.map Prod.fst).sum)

/-- Weighted mean of one target polygon. -/
def meanForTarget (records : List OverlapRecord) (k : ℕ) (vals : List (Option ℚ)) : ℚ :=
  weightedMean (contribPairs records k vals)

/-- Modelled from the spec: `ZonalStatsPoly.mean` (§4.6) — fails with
`dimensionMismatchError` before computing anything when the value sequence
length disagrees with the geometry the table was built against, otherwise
returns the per-target weighted means. -/
def ZonalStatsPoly.mean (o : ZonalStatsPoly) (vals : List (Option ℚ)) :
    Except RadlibError (List ℚ) :=
  if vals.length = o.zdata.numSourceCells then
    Except.ok ((List.range o.zdata.numTargets).map (fun k => meanForTarget o.zdata.records k vals))
  else
    Except.error RadlibError.dimensionMismatchError

/-- C5: when every contributing pair of a target carries the same value v and
the weights are positive (with at least one contributor), the weighted mean of
that target is exactly v, whatever the weight distribution. -/
theorem weighted_mean_constant (records : List OverlapRecord) (k : ℕ)
    (vals : List (Option ℚ)) (v : ℚ)
    (hne : contribPairs records k vals ≠ [])
    (hpos : ∀ p ∈ contribPairs records k vals, 0 < p.1)
    (hval : ∀ p ∈ contribPairs records k vals, p.2 = v) :
    meanForTarget records k vals = v := by
  have hsum : 0 < ((contribPairs records k vals).map Prod.fst).sum := by
    apply List.sum_pos
    · intro a ha
      rcases List.mem_map.mp ha with ⟨p, hp, rfl⟩
      exact hpos p hp
    · simpa using hne
  have hnum : (contribPairs records k vals).map (fun p => p.1 * p.2)
      = (contribPairs records k vals).map (fun p => p.1 * v) := by
    apply List.map_congr_left
    intro p hp
    rw [hval p hp]
  unfold meanForTarget weightedMean
  rw [hnum]
  have : ((contribPairs records k vals).map (fun p => p.1 * v)).sum
      = ((contribPairs records k vals).map Prod.fst).sum * v := by
    induction contribPairs records k vals with
    | nil => simp
    | cons p l ih => simp [ih]; ring
  rw [this]
  exact mul_div_cancel_left₀ v (ne_of_gt hsum)

/-- C5 witness: two contributors with weights 1 and 3 and the common value 7
give weighted mean exactly 7. -/
theorem weighted_mean_constant_witness :
    meanForTarget [⟨0, 0, 1⟩, ⟨1, 0, 3⟩] 0 [some 7, some 7] = 7 := by
  exact weighted_mean_constant [⟨0, 0, 1⟩, ⟨1, 0, 3⟩] 0 [some 7, some 7] 7
    (by decide) (by decide) (by decide)

/-- C7: a value sequence whose length differs from the number of source cells
the table was built against makes every statistics call fail with
`dimensionMismatchError`, returning no statistic at all. -/
theorem dimension_mismatch_fails (o : ZonalStatsPoly) (vals : List (Option ℚ))
    (h : vals.length ≠ o.zdata.numSourceCells) :
    o.mean vals = Except.error RadlibError.dimensionMismatchError := by
  simp [ZonalStatsPoly.mean, h]

/-- C7 witness: a table built against 3 source cells rejects a 2-value
sequence with `dimensionMismatchError`. -/
theorem dimension_mismatch_fails_witness :
    ZonalStatsPoly.mean ⟨⟨[⟨0, 0, 1⟩], 3, 1, 0⟩⟩ [some 1, some 2]
      = Except.error RadlibError.dimensionMismatchError := by
  exact dimension_mismatch_fails ⟨⟨[⟨0, 0, 1⟩], 3, 1, 0⟩⟩ [some 1, some 2] (by decide)

/-- C6: a contributing record whose cell holds the no-data sentinel (`none`)
drops out of numerator and denominator alike: every statistics result equals
the one computed from a weight table in which that record was never a member. -/
theorem nodata_cell_exclusion (pre post : List OverlapRecord) (r : OverlapRecord)
    (n m fp : ℕ) (vals : List (Option ℚ))
    (hnod : vals.getD r.sourceCellIndex none = none) :
    ZonalStatsPoly.mean ⟨⟨pre ++ r :: post, n, m, fp⟩⟩ vals
      = ZonalStatsPoly.mean ⟨⟨pre ++ post, n, m, fp⟩⟩ vals := by
  have hpairs : ∀ k, contribPairs (pre ++ r :: post) k vals
      = contribPairs (pre ++ post) k vals := by
    intro k
    unfold contribPairs
    rw [List.filterMap_append, List.filterMap_append, List.filterMap_cons]
    have hr : (if r.targetPolygonKey = k then
        (vals.getD r.sourceCellIndex none).map (fun v => (r.overlapAreaFraction, v))
        else none) = none := by
      rw [hnod]
      split <;> rfl
    rw [hr]
  unfold ZonalStatsPoly.mean
  by_cases h : vals.length = n
  · rw [if_pos h, if_pos h]
    have : ∀ k, meanForTarget (pre ++ r :: post) k vals = meanForTarget (pre ++ post) k vals := by
      intro k
      unfold meanForTarget
      rw [hpairs k]
    simp only [this]
  · rw [if_neg h, if_neg h]

/-- C6 witness: with values `[some 5, none]`, removing the record of cell 1
(whose value is the no-data marker) leaves every statistic unchanged. -/
theorem nodata_cell_exclusion_witness :
    ZonalStatsPoly.mean ⟨⟨[⟨0, 0, 1⟩] ++ ⟨1, 0, 2⟩ :: [], 2, 1, 0⟩⟩ [some 5, none]
      = ZonalStatsPoly.mean ⟨⟨[⟨0, 0, 1⟩] ++ [], 2, 1, 0⟩⟩ [some 5, none] := by
  exact nodata_cell_exclusion [⟨0, 0, 1⟩] [] ⟨1, 0, 2⟩ 2 1 0 [some 5, none] (by decide)

/-- Serialized form of one overlap record: cell index, target key, and the
weight as an exact numerator/denominator pair (bit-identical round trip). -/
def encodeRecord (r : OverlapRecord) : List ℤ :=
  [(r.sourceCellIndex : ℤ), (r.targetPolygonKey : ℤ),
    r.overlapAreaFraction.num, (r.overlapAreaFraction.den : ℤ)]

/-- Modelled from the spec: `ZonalData.dump_vector` (§4.5), the one-shot save
of a weight table — fingerprint, geometry size, target count, record count,
then the flattened records. -/
def dump_vector (t : ZonalWeightTable) : List ℤ :=
  (t.fingerprint : ℤ) :: (t.numSourceCells : ℤ) :: (t.numTargets : ℤ) ::
    (t.records.length : ℤ) :: (t.records.map encodeRecord).flatten

/-- Decode `n` consecutive serialized records; fails on any leftover or
missing tokens. -/
def decodeRecords : ℕ → List ℤ → Option (List OverlapRecord)
  | 0, [] => some []
  | n + 1, i :: k :: num :: den :: rest =>
      (decodeRecords n rest).map
        (fun rs => ⟨i.toNat, k.toNat, (num : ℚ) / ((den : ℚ))⟩ :: rs)
  | _, _ => none

/-- Modelled from the spec: the load half of the Zonal Weight Store (§4.5);
returns no table on a malformed store. -/
def loadTable (stored : List ℤ) : Option ZonalWeightTable :=
  match stored with
  | fp :: ncells :: ntgts :: nrecs :: rest =>
      (decodeRecords nrecs.toNat rest).map
        (fun rs => ⟨rs, ncells.toNat, ntgts.toNat, fp.toNat⟩)
  | _ => none

theorem decodeRecords_encode (rs : List OverlapRecord) :
    decodeRecords rs.length ((rs.map encodeRecord).flatten) = some rs := by
  induction rs with
  | nil => rfl
  | cons r rest ih =>
    simp only [List.map_cons, List.flatten, encodeRecord, List.cons_append, List.length_cons,
      List.nil_append, decodeRecords, ih, Option.map_some]
    have h1 : ((r.sourceCellIndex : ℤ)).toNat = r.sourceCellIndex := Int.toNat_natCast _
    have h2 : ((r.targetPolygonKey : ℤ)).toNat = r.targetPolygonKey := Int.toNat_natCast _
    have h3 : ((r.overlapAreaFraction.num : ℚ)) / (((r.overlapAreaFraction.den : ℤ) : ℚ))
        = r.overlapAreaFraction := by
      push_cast
      exact Rat.num_div_den r.overlapAreaFraction
    rw [h1, h2, h3]
    simp [ih]

theorem loadTable_dump (t : ZonalWeightTable) : loadTable (dump_vector t) = some t := by
  unfold dump_vector loadTable
  simp only [Int.toNat_natCast, decodeRecords_encode, Option.map_some]
  rfl

/-- C2: the round trip load(save(table)) reproduces a table with a
bit-identical set of OverlapRecords and an identical geometry fingerprint
(indeed the whole table is reproduced exactly). -/
theorem load_dump_roundtrip (t : ZonalWeightTable) :
    ∃ t2, loadTable (dump_vector t) = some t2 ∧
      t2.records = t.records ∧ t2.fingerprint = t.fingerprint ∧ t2 = t :=
  ⟨t, loadTable_dump t, rfl, rfl, rfl⟩

/-- Modelled from the spec: fingerprint-checked load (§4.5) — a stored
fingerprint that differs from the fingerprint of the geometry currently in use
surfaces the distinct stale-weights condition instead of a table. -/
def loadChecked (stored : List ℤ) (currentFp : ℕ) : Except RadlibError ZonalWeightTable :=
  match loadTable stored with
  | none => Except.error RadlibError.formatError
  | some t =>
      if t.fingerprint = currentFp then Except.ok t
      else Except.error RadlibError.staleWeightsError

/-- C8: loading a persisted table whose stored fingerprint differs from the
fingerprint of the geometry currently in use yields the distinct, catchable
`staleWeightsError` instead of silently returning the mismatched table. -/
theorem stale_fingerprint_signal (stored : List ℤ) (t : ZonalWeightTable) (fp : ℕ)
    (hload : loadTable stored = some t) (hne : t.fingerprint ≠ fp) :
    loadChecked stored fp = Except.error RadlibError.staleWeightsError := by
  unfold loadChecked
  rw [hload]
  simp [hne]

/-- C8 witness: a dumped table with fingerprint 1 loaded against current
fingerprint 2 fails with the stale-weights signal. -/
theorem stale_fingerprint_signal_witness :
    loadChecked (dump_vector ⟨[], 0, 0, 1⟩) 2 = Except.error RadlibError.staleWeightsError := by
  exact stale_fingerprint_signal (dump_vector ⟨[], 0, 0, 1⟩) ⟨[], 0, 0, 1⟩ 2
    (loadTable_dump ⟨[], 0, 0, 1⟩) (by decide)

/-- Cross product of two planar vectors (twice the signed triangle area). -/
def cross2 (a b : ℚ × ℚ) : ℚ := a.1 * b.2 - a.2 * b.1

/-- Shoelace sum over consecutive vertex pairs of an explicitly closed vertex
list: twice the signed area it encloses. -/
def shoelaceSum : List (ℚ × ℚ) → ℚ
  | a :: b :: rest => cross2 a b + shoelaceSum (b :: rest)
  | _ => 0

/-- Modelled from the spec: one cell of the Vertex Generator (§4.3) — the
closed 4-vertex polygon of a cell built from its center and the half-extents
(dx, dy), in a fixed counter-clockwise winding, first vertex repeated to close
the ring. -/
def cellVertices (dx dy : ℚ) (c : ℚ × ℚ) : List (ℚ × ℚ) :=
  [(c.1 - dx, c.2 - dy), (c.1 + dx, c.2 - dy), (c.1 + dx, c.2 + dy),
    (c.1 - dx, c.2 + dy), (c.1 - dx, c.2 - dy)]

/-- Modelled from the spec: `wradlib.zonalstats.grid_centers_to_vertices`
(§4.3) — a pure map from cell centers (in native grid coordinates) to closed
cell polygons, shaped like the input grid. -/
def grid_centers_to_vertices (centers : List (ℚ × ℚ)) (dx dy : ℚ) :
    List (List (ℚ × ℚ)) :=
  centers.map (cellVertices dx dy)

/-- Batch reprojection of already generated vertices by an external transform,
applied only after native-coordinate vertex generation (§4.3). -/
def reprojectPolys (T : (ℚ × ℚ) → (ℚ × ℚ)) (polys : List (List (ℚ × ℚ))) :
    List (List (ℚ × ℚ)) :=
  polys.map (List.map T)

/-- C9: the vertex generator returns exactly one closed 4-vertex polygon per
input cell center (5 stored vertices, last = first), all with the same fixed
counter-clockwise winding (constant positive shoelace sum 8·dx·dy), the output
shaped to match the input; any reprojection acts afterwards as a batch
transform over the vertices generated in native coordinates. -/
theorem grid_centers_to_vertices_spec (centers : List (ℚ × ℚ)) (dx dy : ℚ)
    (T : (ℚ × ℚ) → (ℚ × ℚ)) (hdx : 0 < dx) (hdy : 0 < dy) :
    (grid_centers_to_vertices centers dx dy).length = centers.length
    ∧ (∀ p ∈ grid_centers_to_vertices centers dx dy,
        p.length = 5 ∧ p.head? = p.getLast? ∧ shoelaceSum p = 8 * dx * dy
          ∧ 0 < shoelaceSum p)
    ∧ reprojectPolys T (grid_centers_to_vertices centers dx dy)
        = centers.map (fun c => (cellVertices dx dy c).map T) := by
  refine ⟨by simp [grid_centers_to_vertices], ?_,
    by simp [reprojectPolys, grid_centers_to_vertices]⟩
  intro p hp
  rcases List.mem_map.mp hp with ⟨c, hc, rfl⟩
  have harea : shoelaceSum (cellVertices dx dy c) = 8 * dx * dy := by
    simp only [cellVertices, shoelaceSum, cross2]
    ring
  refine ⟨rfl, rfl, harea, ?_⟩
  rw [harea]
  positivity

/-- C9 witness: two unit cells centered at (0,0) and (3,0) with half-extents
1/2 each give two closed 4-vertex counter-clockwise polygons of shoelace sum 2,
unchanged in shape by a batch identity reprojection. -/
theorem grid_centers_to_vertices_spec_witness :
    (grid_centers_to_vertices [((0 : ℚ), (0 : ℚ)), (3, 0)] (1/2) (1/2)).length = 2
    ∧ (∀ p ∈ grid_centers_to_vertices [((0 : ℚ), (0 : ℚ)), (3, 0)] (1/2) (1/2),
        p.length = 5 ∧ p.head? = p.getLast? ∧ shoelaceSum p = 8 * (1/2) * (1/2)
          ∧ 0 < shoelaceSum p)
    ∧ reprojectPolys id (grid_centers_to_vertices [((0 : ℚ), (0 : ℚ)), (3, 0)] (1/2) (1/2))
        = [((0 : ℚ), (0 : ℚ)), (3, 0)].map (fun c => (cellVertices (1/2) (1/2) c).map id) := by
  exact grid_centers_to_vertices_spec [(0, 0), (3, 0)] (1/2) (1/2) id
    (by norm_num) (by norm_num)

/-- Difference of two planar points. -/
def ptSub (a b : ℚ × ℚ) : ℚ × ℚ := (a.1 - b.1, a.2 - b.2)

/-- Signed side of point p relative to the directed clip edge a→b (nonnegative
on the interior side for a counter-clockwise convex clip polygon). -/
def sideOf (a b p : ℚ × ℚ) : ℚ := cross2 (ptSub b a) (ptSub p a)

/-- Intersection of the segment s→e with the infinite line through a→b. -/
def intersectPt (a b s e : ℚ × ℚ) : ℚ × ℚ :=
  let d1 := sideOf a b s
  let d2 := sideOf a b e
  let tt := d1 / (d1 - d2)
  (s.1 + tt * (e.1 - s.1), s.2 + tt * (e.2 - s.2))

/-- One Sutherland–Hodgman step: the output vertices contributed by the
subject edge s→e when clipping against the directed clip edge a→b. -/
def clipEdgeStep (a b s e : ℚ × ℚ) : List (ℚ × ℚ) :=
  if 0 ≤ sideOf a b e then
    if 0 ≤ sideOf a b s then [e] else [intersectPt a b s e, e]
  else
    if 0 ≤ sideOf a b s then [intersectPt a b s e] else []

/-- Directed edge list of a polygon given as a vertex ring, with wraparound. -/
def polyEdges (p : List (ℚ × ℚ)) : List ((ℚ × ℚ) × (ℚ × ℚ)) :=
  p.zip (p.rotate 1)

/-- Clip a subject polygon against a single directed clip edge. -/
def clipByEdge (a b : ℚ × ℚ) (subject : List (ℚ × ℚ)) : List (ℚ × ℚ) :=
  ((polyEdges subject).map (fun se => clipEdgeStep a b se.1 se.2)).flatten

/-- General polygon clipping (Sutherland–Hodgman): successively clip the
subject polygon by every edge of the convex clip polygon (§4.4). -/
def clipPoly (subject clip : List (ℚ × ℚ)) : List (ℚ × ℚ) :=
  (polyEdges clip).foldl (fun acc ab => clipByEdge ab.1 ab.2 acc) subject

/-- Twice the signed area of a polygon given as a vertex ring. -/
def signedArea2 (p : List (ℚ × ℚ)) : ℚ :=
  match p with
  | [] => 0
  | a :: _ => shoelaceSum (p ++ [a])

/-- Absolute value on ℚ, written out so that it evaluates by reduction. -/
def ratAbs (q : ℚ) : ℚ := if q < 0 then -q else q

/-- Polygon area by the shoelace formula. -/
def polyArea (p : List (ℚ × ℚ)) : ℚ := ratAbs (signedArea2 p) / 2

/-- Exact intersection area between one (convex) source grid cell and one
target polygon, computed by polygon clipping (§4.4). -/
def polyIntersectionArea (cell target : List (ℚ × ℚ)) : ℚ :=
  polyArea (clipPoly target cell)

/-- Overlap records of one target polygon over source cells 0..n-1: pairs
with zero intersection area are omitted (sparse representation, §4.4), and
each kept pair is weighted by intersectionArea / targetPolygonArea. -/
def buildTargetRecords (ia : ℕ → ℚ) (n tkey : ℕ) (tArea : ℚ) : List OverlapRecord :=
  ((List.range n).filter (fun i => decide (0 < ia i))).map
    (fun i => ⟨i, tkey, ia i / tArea⟩)

/-- Mixing step of the geometry fingerprint hash. -/
def fpMix (h n : ℕ) : ℕ := (h * 1000003 + n) % (2 ^ 64)

/-- Fingerprint contribution of one rational coordinate. -/
def ratHash (h : ℕ) (q : ℚ) : ℕ :=
  fpMix (fpMix (fpMix h (if q.num < 0 then 1 else 0)) q.num.natAbs) q.den

/-- Fingerprint contribution of one polygon. -/
def polyHash (h : ℕ) (p : List (ℚ × ℚ)) : ℕ :=
  p.foldl (fun h2 c => ratHash (ratHash h2 c.1) c.2) (fpMix h p.length)

/-- Modelled from the spec: the geometry fingerprint (§3, §4.5) — a derived
identifier of the exact source-grid and target-polygon geometry. -/
def geomFingerprint (cells targets : List (List (ℚ × ℚ))) : ℕ :=
  targets.foldl polyHash (cells.foldl polyHash 17)

/-- Modelled from the spec: `wradlib.zonalstats.ZonalDataPoly` (§4.4) — builds
the zonal weight table from source cell polygons and target polygons: rejects
degenerate zero-area targets with `geometryError`, otherwise emits one record
per overlapping (cell, target) pair, normalized by the target polygon area and
tagged with the geometry fingerprint. -/
def ZonalDataPoly (cells targets : List (List (ℚ × ℚ))) :
    Except RadlibError ZonalWeightTable :=
  if targets.any (fun tg => decide (polyArea tg = 0)) then
    Except.error RadlibError.geometryError
  else
    Except.ok
      ⟨((List.range targets.length).map (fun k =>
          buildTargetRecords
            (fun i => polyIntersectionArea (cells.getD i []) (targets.getD k []))
            cells.length k (polyArea (targets.getD k [])))).flatten,
        cells.length, targets.length, geomFingerprint cells targets⟩

theorem ratAbs_nonneg (q : ℚ) : 0 ≤ ratAbs q := by
  unfold ratAbs
  split
  · linarith
  · linarith

theorem polyArea_nonneg (p : List (ℚ × ℚ)) : 0 ≤ polyArea p := by
  unfold polyArea
  have := ratAbs_nonneg (signedArea2 p)
  positivity

theorem buildTargetRecords_key (ia : ℕ → ℚ) (n tkey : ℕ) (tArea : ℚ) :
    ∀ r ∈ buildTargetRecords ia n tkey tArea, r.targetPolygonKey = tkey := by
  intro r hr
  rcases List.mem_map.mp hr with ⟨i, hi, rfl⟩
  rfl

theorem filter_flatten_lists {α : Type} (p : α → Bool) (ls : List (List α)) :
    ls.flatten.filter p = (ls.map (List.filter p)).flatten := by
  induction ls with
  | nil => rfl
  | cons l ls ih => simp [List.filter_append, ih]

theorem flatten_filter_key (F : ℕ → List OverlapRecord) (k : ℕ)
    (hkey : ∀ k2, ∀ r ∈ F k2, r.targetPolygonKey = k2) :
    ∀ m, k < m →
      (((List.range m).map F).flatten).filter (fun r => decide (r.targetPolygonKey = k))
        = F k := by
  intro m
  induction m with
  | zero => intro h; omega
  | succ m ih =>
    intro hk
    rw [List.range_succ, List.map_append, List.flatten_append, List.filter_append]
    by_cases hkm : k < m
    · rw [ih hkm]
      have hlast : (([m].map F).flatten).filter
          (fun r => decide (r.targetPolygonKey = k)) = [] := by
        apply List.filter_eq_nil_iff.mpr
        intro r hr
        have hmem : r ∈ F m := by simpa using hr
        have := hkey m r hmem
        simp only [this, decide_eq_true_eq]
        omega
      rw [hlast, List.append_nil]
    · have hkeq : k = m := by omega
      subst hkeq
      have h1 : (((List.range k).map F).flatten).filter
          (fun r => decide (r.targetPolygonKey = k)) = [] := by
        apply List.filter_eq_nil_iff.mpr
        intro r hr
        rcases List.mem_flatten.mp hr with ⟨l, hl, hrl⟩
        rcases List.mem_map.mp hl with ⟨k2, hk2, rfl⟩
        have := hkey k2 r hrl
        have hk2lt := List.mem_range.mp hk2
        simp only [this, decide_eq_true_eq]
        omega
      have h2 : (([k].map F).flatten).filter
          (fun r => decide (r.targetPolygonKey = k)) = F k := by
        have : (([k].map F).flatten) = F k := by simp
        rw [this]
        apply List.filter_eq_self.mpr
        intro r hr
        simp [hkey k r hr]
      rw [h1, h2, List.nil_append]

theorem filtered_sum_div (ia : ℕ → ℚ) (tA : ℚ) :
    ∀ l : List ℕ, (∀ i ∈ l, 0 ≤ ia i) →
      (((l.filter (fun i => decide (0 < ia i))).map (fun i => ia i / tA)).sum)
        = (l.map ia).sum / tA := by
  intro l
  induction l with
  | nil => simp
  | cons i l ih =>
    intro h
    have hi := h i (List.mem_cons_self i l)
    have hrest : ∀ j ∈ l, 0 ≤ ia j := fun j hj => h j (List.mem_cons_of_mem i hj)
    simp only [List.map_cons, List.sum_cons]
    by_cases hpos : 0 < ia i
    · rw [List.filter_cons_of_pos (by simpa using hpos), List.map_cons, List.sum_cons,
        ih hrest, div_add_div_same]
    · have hz : ia i = 0 := le_antisymm (not_lt.mp hpos) hi
      rw [List.filter_cons_of_neg (by simpa using hpos), ih hrest, hz, zero_add]

theorem buildTargetRecords_spec (ia : ℕ → ℚ) (n tkey : ℕ) (tA : ℚ)
    (hA : 0 < tA) (hnn : ∀ i, 0 ≤ ia i) :
    (∀ r ∈ buildTargetRecords ia n tkey tA,
        r.overlapAreaFraction = ia r.sourceCellIndex / tA)
    ∧ (((List.range n).map ia).sum = tA →
        ((buildTargetRecords ia n tkey tA).map OverlapRecord.overlapAreaFraction).sum = 1)
    ∧ (((List.range n).map ia).sum < tA →
        ((buildTargetRecords ia n tkey tA).map OverlapRecord.overlapAreaFraction).sum < 1) := by
  have hne : tA ≠ 0 := ne_of_gt hA
  have hcomp : ((buildTargetRecords ia n tkey tA).map OverlapRecord.overlapAreaFraction)
      = ((List.range n).filter (fun i => decide (0 < ia i))).map (fun i => ia i / tA) := by
    unfold buildTargetRecords
    rw [List.map_map]
    rfl
  have hsum : ((buildTargetRecords ia n tkey tA).map OverlapRecord.overlapAreaFraction).sum
      = ((List.range n).map ia).sum / tA := by
    rw [hcomp]
    exact filtered_sum_div ia tA (List.range n) (fun i _ => hnn i)
  refine ⟨?_, ?_, ?_⟩
  · intro r hr
    rcases List.mem_map.mp hr with ⟨i, hi, rfl⟩
    rfl
  · intro hcov
    rw [hsum, hcov, div_self hne]
  · intro hcov
    rw [hsum]
    exact (div_lt_one hA).mpr hcov

/-- C1: in a built weight table, each record of a target carries exactly
intersectionArea / targetPolygonArea as its overlap fraction; consequently the
fractions of a target fully covered by the source cells (total intersection
area equal to the target's area) sum to 1, and those of a target only
partially covered (total intersection area below the target's area) sum to
strictly less than 1. -/
theorem overlap_fraction_normalization (cells targets : List (List (ℚ × ℚ)))
    (t : ZonalWeightTable) (k : ℕ)
    (hok : ZonalDataPoly cells targets = Except.ok t) (hk : k < targets.length) :
    (∀ r ∈ t.records.filter (fun r => decide (r.targetPolygonKey = k)),
        r.overlapAreaFraction
          = polyIntersectionArea (cells.getD r.sourceCellIndex []) (targets.getD k [])
              / polyArea (targets.getD k []))
    ∧ (((List.range cells.length).map
            (fun i => polyIntersectionArea (cells.getD i []) (targets.getD k []))).sum
          = polyArea (targets.getD k []) →
        ((t.records.filter (fun r => decide (r.targetPolygonKey = k))).map
            OverlapRecord.overlapAreaFraction).sum = 1)
    ∧ (((List.range cells.length).map
            (fun i => polyIntersectionArea (cells.getD i []) (targets.getD k []))).sum
          < polyArea (targets.getD k []) →
        ((t.records.filter (fun r => decide (r.targetPolygonKey = k))).map
            OverlapRecord.overlapAreaFraction).sum < 1) := by
  unfold ZonalDataPoly at hok
  by_cases hany : (targets.any (fun tg => decide (polyArea tg = 0))) = true
  · rw [if_pos hany] at hok
    cases hok
  · rw [if_neg hany] at hok
    injection hok with hok
    subst hok
    have hnone : ∀ tg ∈ targets, polyArea tg ≠ 0 := by
      intro tg htg h0
      apply hany
      rw [List.any_eq_true]
      exact ⟨tg, htg, by simp [h0]⟩
    have hgd : targets.getD k [] ∈ targets := by
      have h1 : targets.getD k [] = targets.get ⟨k, hk⟩ := by
        rw [List.getD_eq_getElem?_getD, List.getElem?_eq_getElem hk]
        rfl
      rw [h1]
      exact targets.get_mem k hk
    have hApos : 0 < polyArea (targets.getD k []) :=
      lt_of_le_of_ne (polyArea_nonneg _) (Ne.symm (hnone _ hgd))
    have hfilter := flatten_filter_key
      (fun k2 => buildTargetRecords
        (fun i => polyIntersectionArea (cells.getD i []) (targets.getD k2 []))
        cells.length k2 (polyArea (targets.getD k2 [])))
      k
      (fun k2 r hr => buildTargetRecords_key _ _ _ _ r hr)
      targets.length hk
    rw [hfilter]
    exact buildTargetRecords_spec
      (fun i => polyIntersectionArea (cells.getD i []) (targets.getD k []))
      cells.length k (polyArea (targets.getD k []))
      hApos (fun i => polyArea_nonneg _)

/-- Unit square source cell used by the concrete scenarios. -/
def unitSq : List (ℚ × ℚ) := [(0, 0), (1, 0), (1, 1), (0, 1)]

/-- Clipping the unit square by itself returns the unit square. -/
theorem clipPoly_unitSq : clipPoly unitSq unitSq = unitSq := by
  norm_num [clipPoly, polyEdges, List.rotate, clipByEdge, clipEdgeStep, sideOf, cross2,
    ptSub, intersectPt, unitSq]

theorem polyArea_unitSq : polyArea unitSq = 1 := by
  norm_num [polyArea, signedArea2, shoelaceSum, cross2, ratAbs, unitSq]

theorem polyIntersectionArea_unitSq : polyIntersectionArea unitSq unitSq = 1 := by
  rw [polyIntersectionArea, clipPoly_unitSq, polyArea_unitSq]

theorem geomFingerprint_unitSq :
    geomFingerprint [unitSq] [unitSq] = 2595530346031518473 := by
  norm_num [geomFingerprint, polyHash, ratHash, fpMix, unitSq]

theorem ZonalDataPoly_unitSq :
    ZonalDataPoly [unitSq] [unitSq]
      = Except.ok ⟨[⟨0, 0, 1⟩], 1, 1, 2595530346031518473⟩ := by
  norm_num [ZonalDataPoly, List.range_succ, buildTargetRecords,
    polyIntersectionArea_unitSq, polyArea_unitSq, geomFingerprint_unitSq]

/-- The weight table of the one-cell unit-square scenario. -/
def zwTableUnit : ZonalWeightTable := ⟨[⟨0, 0, 1⟩], 1, 1, 2595530346031518473⟩

/-- C1 witness: a single unit-square source cell fully covering a unit-square
target yields overlap fractions that sum to exactly 1. -/
theorem overlap_fraction_normalization_witness :
    ((zwTableUnit.records.filter (fun r => decide (r.targetPolygonKey = 0))).map
        OverlapRecord.overlapAreaFraction).sum = 1 := by
  have h := overlap_fraction_normalization [unitSq] [unitSq] zwTableUnit 0
    ZonalDataPoly_unitSq (by norm_num)
  exact h.2.1 (by norm_num [List.range_succ, polyIntersectionArea_unitSq, polyArea_unitSq])

/-- Modelled from the spec and the notebook benchmark cell: constructing a
`ZonalStatsPoly` directly from a dumped weight table file and calling a
statistic on it. -/
def zonalStatsFromFile (stored : List ℤ) (vals : List (Option ℚ)) :
    Except RadlibError (List ℚ) :=
  match loadTable stored with
  | none => Except.error RadlibError.formatError
  | some t => ZonalStatsPoly.mean ⟨t⟩ vals

/-- C10: a statistics engine built by loading a previously dumped weight table
and one built from scratch from the same source cell polygons and the same
target polygons return equal statistics for every value sequence of the
matching length. -/
theorem stats_from_file_eq_scratch (cells targets : List (List (ℚ × ℚ)))
    (t : ZonalWeightTable) (vals : List (Option ℚ))
    (hok : ZonalDataPoly cells targets = Except.ok t)
    (hlen : vals.length = t.numSourceCells) :
    zonalStatsFromFile (dump_vector t) vals = ZonalStatsPoly.mean ⟨t⟩ vals := by
  unfold zonalStatsFromFile
  rw [loadTable_dump]

/-- C10 witness: for the unit-square scenario, the engine reloaded from the
dumped table and the engine built from scratch agree on the value sequence
`[some 3]`. -/
theorem stats_from_file_eq_scratch_witness :
    zonalStatsFromFile (dump_vector zwTableUnit) [some 3]
      = ZonalStatsPoly.mean ⟨zwTableUnit⟩ [some 3] := by
  exact stats_from_file_eq_scratch [unitSq] [unitSq] zwTableUnit [some 3]
    ZonalDataPoly_unitSq (by decide)
